import Mathlib

/-!
Verification of the `classifind` data-labeler (`src/classifind/labeler.py`,
with the earlier variant `src/classifind/data-labeler/labeler.py`).

The labeler is a collection of Python-`re` based field extractors over music
title/tag strings, plus a per-file row-assembly loop.  We embed the relevant
Python `re` semantics shallowly: a small backtracking matcher over `List Char`
with Python's priority order (leftmost start position wins; at a position,
alternatives are tried in order; greedy quantifiers prefer longer matches),
`IGNORECASE` throughout (all patterns in the source are compiled with
`re.IGNORECASE`), capture groups, lookahead, fixed-width lookbehind and the
word-boundary assertion.

An important transcription detail: the source writes its long patterns as raw
string literals continued over several physical lines with a trailing
backslash.  Inside a Python *raw* string, backslash–newline is NOT a line
continuation: both characters stay in the literal.  Hence several pattern
alternatives genuinely begin with a literal newline followed by the source
file's indentation spaces (e.g. `"\n    Variations"` in COMPOSITION_PATTERN,
and the whole Roman-numeral alternative of COMPOSITION_NUMBER).  The patterns
below transcribe those characters faithfully.
-/

/-- Python `\s` (ASCII part, which is all the corpus uses). -/
def pyWs (c : Char) : Bool :=
  c == ' ' || c == '\t' || c == '\n' || c == '\r' || c == '\x0b' || c == '\x0c'

/-- Python `\w` (ASCII part): letters, digits, underscore. -/
def isWordChar (c : Char) : Bool := c.isAlphanum || c == '_'

/-- Case-insensitive character comparison (ASCII case folding, as Lean's
`Char.toLower`; the source patterns and corpus are ASCII). -/
def lcEq (a b : Char) : Bool := a.toLower == b.toLower

/-- Python `str.lower()` (ASCII). -/
def pyLower (s : String) : String := ⟨s.data.map Char.toLower⟩

/-- Python `str.capitalize()`: first character upper-cased, the rest
lower-cased. -/
def pyCapitalize (s : String) : String :=
  match s.data with
  | [] => ""
  | c :: cs => ⟨c.toUpper :: cs.map Char.toLower⟩

/-- The substring `s[i:j]` as a character list. -/
def sliceL (s : List Char) (i j : Nat) : List Char := (s.drop i).take (j - i)

/-- Regular-expression abstract syntax, covering exactly the constructs used
by the labeler's patterns. -/
inductive RE where
  | eps
  | pred (p : Char → Bool)
  | lit (c : Char)
  | seq (a b : RE)
  | alt (a b : RE)
  | opt (r : RE)
  | star (r : RE)
  | starL (r : RE)
  | look (r : RE)
  | lookb (neg : Bool) (ps : List (Char → Bool))
  | wordB
  | group (n : Nat) (r : RE)

/-- Recorded capture-group spans `(group index, start, end)`. -/
abbrev Caps := List (Nat × Nat × Nat)

/-- A matcher continuation: given the current position and captures, either
the final `(end position, captures)` of an overall match, or failure. -/
abbrev MK := Nat → Caps → Option (Nat × Caps)

/-- Check a list of character predicates against `s` starting at `j`. -/
def predsAt (s : List Char) : List (Char → Bool) → Nat → Bool
  | [], _ => true
  | p :: ps, j =>
      match s[j]? with
      | some c => p c && predsAt s ps (j + 1)
      | none => false

/-- Fixed-width lookbehind test: the predicates must match the characters
immediately before position `i`. -/
def lookbOK (s : List Char) (ps : List (Char → Bool)) (i : Nat) : Bool :=
  decide (ps.length ≤ i) && predsAt s ps (i - ps.length)

/-- Whether the character at position `i` (if any) is a word character. -/
def wordAt (s : List Char) (i : Nat) : Bool :=
  match s[i]? with
  | some c => isWordChar c
  | none => false

/-- Python `\b`: exactly one side of the position is a word character. -/
def boundaryAt (s : List Char) (i : Nat) : Bool :=
  (if i = 0 then false else wordAt s (i - 1)) != wordAt s i

/-- One layer of the backtracking matcher.  `next` handles the self-call of
`star`/`starL` (fuelled separately so that the whole definition is
structurally recursive and kernel-reducible). -/
def mStep (next : RE → List Char → Nat → Caps → MK → Option (Nat × Caps)) :
    RE → List Char → Nat → Caps → MK → Option (Nat × Caps)
  | .eps, _, i, cs, k => k i cs
  | .pred p, s, i, cs, k =>
      match s[i]? with
      | some c => if p c then k (i + 1) cs else none
      | none => none
  | .lit c, s, i, cs, k =>
      match s[i]? with
      | some d => if lcEq d c then k (i + 1) cs else none
      | none => none
  | .seq a b, s, i, cs, k => mStep next a s i cs (fun j cs2 => mStep next b s j cs2 k)
  | .alt a b, s, i, cs, k =>
      match mStep next a s i cs k with
      | some v => some v
      | none => mStep next b s i cs k
  | .opt r, s, i, cs, k =>
      match mStep next r s i cs k with
      | some v => some v
      | none => k i cs
  | .star r, s, i, cs, k =>
      match mStep next r s i cs (fun j cs2 => next (.star r) s j cs2 k) with
      | some v => some v
      | none => k i cs
  | .starL r, s, i, cs, k =>
      match k i cs with
      | some v => some v
      | none => mStep next r s i cs (fun j cs2 => next (.starL r) s j cs2 k)
  | .look r, s, i, cs, k =>
      match mStep next r s i cs (fun j cs2 => some (j, cs2)) with
      | some _ => k i cs
      | none => none
  | .lookb neg ps, s, i, cs, k =>
      if neg then (if lookbOK s ps i then none else k i cs)
      else (if lookbOK s ps i then k i cs else none)
  | .wordB, s, i, cs, k => if boundaryAt s i then k i cs else none
  | .group n r, s, i, cs, k => mStep next r s i cs (fun j cs2 => k j ((n, i, j) :: cs2))

/-- Fuelled matcher.  Each unit of fuel allows one further iteration of a
(greedy or lazy) star; every star body in the labeler's patterns consumes at
least one character per iteration, so fuel `length + 1` is always enough. -/
def mFuel : Nat → RE → List Char → Nat → Caps → MK → Option (Nat × Caps)
  | 0, _, _, i, cs, k => k i cs
  | f + 1, re, s, i, cs, k => mStep (mFuel f) re s i cs k

/-- Try to match `re` at exactly position `i` of `s`. -/
def matchTop (re : RE) (s : List Char) (i : Nat) : Option (Nat × Caps) :=
  mFuel (s.length + 1) re s i [] (fun j cs => some (j, cs))

/-- Scan of the string, producing every non-overlapping match in order, as in
Python's `re.finditer` (an empty match advances the scan by one). -/
def scanAux (re : RE) (s : List Char) : Nat → Nat → List (Nat × Nat × Caps)
  | 0, _ => []
  | f + 1, i =>
      if i > s.length then []
      else
        match matchTop re s i with
        | some (e, cs) => (i, e, cs) :: scanAux re s f (if i < e then e else i + 1)
        | none => scanAux re s f (i + 1)

/-- All matches of `re` in `s` (Python `re.finditer`). -/
def reScan (re : RE) (s : List Char) : List (Nat × Nat × Caps) :=
  scanAux re s (s.length + 1) 0

/-- First match of `re` in `s` (Python `re.search`): start, end, captures. -/
def reSearch (re : RE) (s : List Char) : Option (Nat × Nat × Caps) :=
  (reScan re s).head?

/-- Python `re.findall` for a pattern with no capture group: the matched
texts. -/
def reFindall0 (re : RE) (s : List Char) : List (List Char) :=
  (reScan re s).map (fun r => sliceL s r.1 r.2.1)

/-- Last value recorded for capture group `n` (the head of `Caps` is the most
recently recorded span, as in Python where a repeated group keeps its last
match). -/
def capLookup : Caps → Nat → Option (Nat × Nat)
  | [], _ => none
  | (m, a, b) :: rest, n => if m = n then some (a, b) else capLookup rest n

/-- Python `re.findall` for a pattern with exactly one capture group: the
group-1 texts (the empty string if the group did not participate). -/
def reFindall1 (re : RE) (s : List Char) : List (List Char) :=
  (reScan re s).map
    (fun r =>
      match capLookup r.2.2 1 with
      | some (a, b) => sliceL s a b
      | none => [])

def digitRE : RE := .pred Char.isDigit
def wsRE : RE := .pred pyWs
def dotRE : RE := .pred (fun c => c != '\n')
def dotStar : RE := .star dotRE
def dotStarL : RE := .starL dotRE
def digitsPlus : RE := .seq digitRE (.star digitRE)

/-- A case-insensitive literal word. -/
def litS : List Char → RE
  | [] => .eps
  | c :: cs => .seq (.lit c) (litS cs)

/-- Alternation over a list (an empty list never matches). -/
def altL (rs : List RE) : RE := rs.foldr .alt (.pred (fun _ => false))

/-- An alternative of a vocabulary alternation: an optional fixed-width
negative lookbehind guard followed by a literal word. -/
structure VocabAlt where
  guard : Option (List (Char → Bool))
  word : String

/-- Build the regex of one vocabulary alternative. -/
def vocabRE (v : VocabAlt) : RE :=
  match v.guard with
  | some ps => .seq (.lookb true ps) (litS v.word.data)
  | none => litS v.word.data

/-- COMPOSER_PATTERN = `Mozart|Beethoven|Bach` (main labeler). -/
def composerLits : List String := ["Mozart", "Beethoven", "Bach"]

def composerRE : RE := altL (composerLits.map (fun w => litS w.data))

/-- COMPOSER_PATTERN = `Mozart|Beethoven|Bach|Ravel` (data-labeler variant). -/
def composerMinLits : List String := ["Mozart", "Beethoven", "Bach", "Ravel"]

def composerMinRE : RE := altL (composerMinLits.map (fun w => litS w.data))

/-- COMPOSITION_PATTERN literal alternatives.  The raw-string line
continuation puts a literal newline and the next line's four indentation
spaces in front of `Variations`. -/
def compositionLits : List String :=
  ["Sonata", "Concerto", "String", "Quartet", "Quintet", "Symphony", "Trio",
   "Suite", "Prelude", "Fugue", "\n    Variations", "Overture", "Rondo",
   "Fantasy", "Opera", "Divermento", "Serenade", "Ballet"]

def compositionRE : RE := altL (compositionLits.map (fun w => litS w.data))

/-- The spec's composition-genre vocabulary (the plain terms, as listed in
the spec: "Sonata", "Concerto", ...).  Used to state hypotheses about titles
"containing no composition-genre term". -/
def compositionVocab : List String :=
  ["Sonata", "Concerto", "String", "Quartet", "Quintet", "Symphony", "Trio",
   "Suite", "Prelude", "Fugue", "Variations", "Overture", "Rondo",
   "Fantasy", "Opera", "Divermento", "Serenade", "Ballet"]

/-- Greedy `r{0,3}`. -/
def rep03 (r : RE) : RE := .opt (.seq r (.opt (.seq r (.opt r))))

/-- Greedy `r{1,3}`. -/
def rep13 (r : RE) : RE := .seq r (.opt (.seq r (.opt r)))

/-- Greedy `\d{1,2}`. -/
def d12RE : RE := .seq digitRE (.opt digitRE)

/-- COMPOSITION_NUMBER =
`((?:No)(?:.)?\s?\d+)|((?:Nos)(?:.)?\s?\d+\sand\s\d+)|` newline + 4 spaces +
`(XC|XL|L?X{0,3})(IX|IV|V?I{0,3})(?=\sin)`.
The third (Roman numeral) alternative starts with the literal newline and
indentation characters kept by the raw-string continuation. -/
def compositionNumberRE : RE :=
  altL
    [.group 1 (.seq (litS "No".data) (.seq (.opt dotRE) (.seq (.opt wsRE) digitsPlus))),
     .group 2 (.seq (litS "Nos".data) (.seq (.opt dotRE) (.seq (.opt wsRE)
       (.seq digitsPlus (.seq wsRE (.seq (litS "and".data) (.seq wsRE digitsPlus))))))),
     .seq (litS "\n    ".data)
       (.seq (.group 3 (altL [litS "XC".data, litS "XL".data,
           .seq (.opt (.lit 'L')) (rep03 (.lit 'X'))]))
         (.seq (.group 4 (altL [litS "IX".data, litS "IV".data,
             .seq (.opt (.lit 'V')) (rep03 (.lit 'I'))]))
           (.look (.seq wsRE (litS "in".data)))))]

/-- NICKNAME_PATTERN = `(?<=\").*?(?=\")|(?<=').*?(?=')`. -/
def nicknameRE : RE :=
  altL
    [.seq (.lookb false [fun c => c == Char.ofNat 34])
       (.seq dotStarL (.look (.pred (fun c => c == Char.ofNat 34)))),
     .seq (.lookb false [fun c => c == Char.ofNat 39])
       (.seq dotStarL (.look (.pred (fun c => c == Char.ofNat 39))))]

/-- WORKNUMBER_PATTERN = `((?:K|KV|OP|Opus|BWV)(?:.)?\s?\d+[a-z]?)` (with
IGNORECASE, `[a-z]` also matches upper case). -/
def worknumberRE : RE :=
  .group 1 (.seq (altL [litS "K".data, litS "KV".data, litS "OP".data,
      litS "Opus".data, litS "BWV".data])
    (.seq (.opt dotRE) (.seq (.opt wsRE) (.seq digitsPlus
      (.opt (.pred (fun c => 'a' ≤ c.toLower && c.toLower ≤ 'z')))))))

/-- WORKNUMBER_NUMBER_PATTERN = `((?:No)(?:.)?\s?\d+)`. -/
def worknumberNumberRE : RE :=
  .group 1 (.seq (litS "No".data) (.seq (.opt dotRE) (.seq (.opt wsRE) digitsPlus)))

/-- Roman-numeral sub-pattern `(IX|IV|V?I{1,3})` of MOVEMENT_PATTERN. -/
def romanMv : RE :=
  altL [litS "IX".data, litS "IV".data, .seq (.opt (.lit 'V')) (rep13 (.lit 'I'))]

/-- Tempo-word alternation of MOVEMENT_PATTERN (group 6).  Two alternatives
carry the raw-string continuation artifact (`\n` + 8 spaces before
`Allegretto`, `\n` + 12 spaces before `Overture`). -/
def tempoAlt : RE :=
  altL
    [litS "Allegro".data, litS "Andante".data, litS "Andantino".data,
     litS "Adagio".data, litS "\n        Allegretto".data, litS "Moderato".data,
     litS "Presto".data, litS "Assai".data, litS "Menuetto".data,
     litS "Rondo".data, litS "Vivace".data, litS "Molto".data,
     litS "Largo".data, litS "Larghetto".data, litS "Romance".data,
     litS "Finale".data, litS "Scherzo".data,
     .seq (.opt (.seq (litS "Un".data) wsRE)) (litS "Poco".data),
     litS "Grave".data, litS "Pastorale".data, litS "Maestoso".data,
     litS "\n            Overture".data, litS "Introduction".data]

/-- MOVEMENT_PATTERN, alternative by alternative (see the source lines 33-37;
alternative 2's `Sixth` and the whole of alternative 4 carry the raw-string
continuation newline+indent prefix). -/
def movementRE : RE :=
  altL
    [.seq d12RE (.seq (altL [litS "st".data, litS "nd".data, litS "rd".data,
        litS "th".data])
       (.seq wsRE (.seq (litS "Mov".data) (.seq (.opt (litS "ement".data)) dotStar)))),
     .seq (.group 1 (altL [litS "First".data, litS "Second".data, litS "Third".data,
         litS "Forth".data, litS "Fifth".data, litS "\n    Sixth".data,
         litS "Seventh".data, litS "Eighth".data, litS "Ninth".data,
         litS "Tenth".data]))
       (.seq wsRE (.seq (litS "Mov".data) (.seq (litS "ement".data) dotStar))),
     .seq (.group 2 romanMv)
       (.seq (.group 3 (altL [.seq (.lit '.') wsRE, .seq wsRE (.seq (.lit '-') wsRE)]))
         dotStar),
     .seq (litS "\n        ".data)
       (.seq (litS "Mov".data) (.seq (.opt (litS "ement".data)) (.seq (.opt (.lit 's'))
         (.seq wsRE (.seq (.group 4 romanMv) dotStar))))),
     .seq (litS "Act".data) (.seq wsRE (.seq d12RE (.seq (.opt dotRE) dotStar))),
     .seq (.group 5 (altL [.lookb false [fun c => c == ':', pyWs],
         .lookb false [fun c => c == '-', pyWs]]))
       (.seq (.group 6 tempoAlt) dotStar),
     .seq (litS "Variatio".data) (.seq wsRE (.seq d12RE dotStar)),
     .seq .wordB (.seq (litS "Aria".data) (.seq dotStar .wordB))]

/-- MOVEMENT_NUMBER_PATTERN = `([0-9][0-9](\.\s|\s-\s).*)`. -/
def movementNumberRE : RE :=
  .group 1 (.seq digitRE (.seq digitRE
    (.seq (.group 2 (altL [.seq (.lit '.') wsRE, .seq wsRE (.seq (.lit '-') wsRE)]))
      dotStar)))

/-- KEY_PATTERN =
`(?<=in)(?:\s)?\b[A-G]\b(?:-Flat|\sFlat|b|-Sharp|\sSharp|#)?(?:\sMajor|\sMinor)?`.
Note the mandatory positive lookbehind for the two characters `in`. -/
def keyInPreds : List (Char → Bool) := [fun c => lcEq c 'i', fun c => lcEq c 'n']

/-- The consuming part of KEY_PATTERN after the lookbehind. -/
def keyTailRE : RE :=
  .seq (.opt wsRE)
    (.seq .wordB
      (.seq (.pred (fun c => 'a' ≤ c.toLower && c.toLower ≤ 'g'))
        (.seq .wordB
          (.seq (.opt (altL [litS "-Flat".data, .seq wsRE (litS "Flat".data),
              .lit 'b', litS "-Sharp".data, .seq wsRE (litS "Sharp".data), .lit '#']))
            (.opt (altL [.seq wsRE (litS "Major".data),
              .seq wsRE (litS "Minor".data)]))))))

def keyRE : RE := .seq (.lookb false keyInPreds) keyTailRE

/-- INSTRUMENT_PATTERN inner vocabulary, in source order.  `Double Bass` and
`Horn` carry the raw-string continuation newline+indent prefix; `Flute` has
the negative lookbehind `(?<!Magic\s)`. -/
def instrumentVocab : List VocabAlt :=
  [⟨none, "Piano"⟩, ⟨none, "Keyboard"⟩, ⟨none, "Organ"⟩, ⟨none, "Guitar"⟩,
   ⟨none, "Violin"⟩, ⟨none, "Viola"⟩, ⟨none, "Cello"⟩,
   ⟨none, "\n    Double Bass"⟩, ⟨none, "Piccolo"⟩,
   ⟨some [fun c => lcEq c 'M', fun c => lcEq c 'a', fun c => lcEq c 'g',
          fun c => lcEq c 'i', fun c => lcEq c 'c', pyWs], "Flute"⟩,
   ⟨none, "Oboe"⟩, ⟨none, "Clarinet"⟩, ⟨none, "Bassoon"⟩, ⟨none, "Trumpet"⟩,
   ⟨none, "\n    Horn"⟩, ⟨none, "Trombone"⟩, ⟨none, "Tuba"⟩,
   ⟨none, "Saxophone"⟩, ⟨none, "Timpani"⟩, ⟨none, "Harp"⟩, ⟨none, "Recorder"⟩,
   ⟨none, "Bagpipes"⟩, ⟨none, "Ukulele"⟩]

/-- The inner alternation of INSTRUMENT_PATTERN (its capture group 1). -/
def instrInnerRE : RE := altL (instrumentVocab.map vocabRE)

/-- The optional plural `s` and closing word boundary of INSTRUMENT_PATTERN,
outside the capture group. -/
def instrTailRE : RE := .seq (.opt (.lit 's')) .wordB

/-- INSTRUMENT_PATTERN = `\b(Piano|...|Ukulele)(?:s)?\b`. -/
def instrumentRE : RE :=
  .seq .wordB (.seq (.group 1 instrInnerRE) instrTailRE)

/-- Python exceptions that the labeler can raise at row time:
`re.search(pattern, None)` raises `TypeError`; `None.group(0)` raises
`AttributeError`. -/
inductive PyErr where
  | typeError
  | attributeError
deriving DecidableEq

/-- Python `list(dict.fromkeys(xs))`: drop duplicates, keeping each value's
first occurrence, preserving order. -/
def pyDedup (l : List String) : List String :=
  l.foldl (fun acc x => if x ∈ acc then acc else acc ++ [x]) []

/-- The loop of `extract_composer`: for each metadata entry in order, run
`re.search(COMPOSER_PATTERN, entry, re.IGNORECASE)`; a `None` entry raises
`TypeError` inside `re.search`; a match returns
`match.group(0).lower().capitalize()`. -/
def composerLoop (re : RE) : List (Option String) → Except PyErr (Option String)
  | [] => .ok none
  | none :: _ => .error .typeError
  | some s :: rest =>
      match reSearch re s.data with
      | some (i, e, _) => .ok (some (pyCapitalize (pyLower ⟨sliceL s.data i e⟩)))
      | none => composerLoop re rest

/-- Model of `extract_composer(file, file_path)` in `src/classifind/labeler.py`
(lines 47-62): search `[file.artist, file.title, file.album]` in order, then
fall back to the file path; when the path has no match either, the code calls
`.group(0)` on `None` and raises `AttributeError`. -/
def extract_composer (artist title album : Option String) (filePath : String) :
    Except PyErr String :=
  match composerLoop composerRE [artist, title, album] with
  | .error e => .error e
  | .ok (some c) => .ok c
  | .ok none =>
      match reSearch composerRE filePath.data with
      | some (i, e, _) => .ok (pyCapitalize (pyLower ⟨sliceL filePath.data i e⟩))
      | none => .error .attributeError

/-- Model of `extract_composer(file)` in `src/classifind/data-labeler/labeler.py`
(lines 37-49): same three-entry loop (with `Ravel` in the pattern), but no
file-path fallback — it returns `None` when all three entries miss. -/
def extract_composer_min (artist title album : Option String) :
    Except PyErr (Option String) :=
  composerLoop composerMinRE [artist, title, album]

/-- Model of `extract_composition(title)` (lines 65-76): `re.findall`, capitalize each
match, deduplicate keeping first occurrences, join with `", "`.  The source's
`if composition_result is not None` test is vacuous (`re.findall` returns a
list, never `None`), so the `return None` branch is dead code and the joined
string — possibly empty — is always returned. -/
def extract_composition (title : String) : Option String :=
  let composition_result := reFindall0 compositionRE title.data
  some (String.intercalate ", "
    (pyDedup (composition_result.map (fun m => pyCapitalize ⟨m⟩))))

/-- Model of `extract_composition_no(title)` (lines 79-98): start searching after the
first composition match, else after the first instrument match, else at 0. -/
def extract_composition_no (title : String) : Option String :=
  let start_position :=
    match reSearch compositionRE title.data with
    | some (_, e, _) => e
    | none =>
        match reSearch instrumentRE title.data with
        | some (_, e, _) => e
        | none => 0
  match reSearch compositionNumberRE (title.data.drop start_position) with
  | some (i, e, _) => some ⟨sliceL (title.data.drop start_position) i e⟩
  | none => none

/-- Model of `extract_nickname(title)` (lines 101-110). -/
def extract_nickname (title : String) : Option String :=
  match reSearch nicknameRE title.data with
  | some (i, e, _) => some ⟨sliceL title.data i e⟩
  | none => none

/-- Model of `extract_workno(title)` (lines 113-128): search for the catalogue token;
if found, search `title[match.end():]` for a following `No. N` token and join
the two with `", "`, else return the token; `None` when no catalogue token. -/
def extract_workno (title : String) : Option String :=
  match reSearch worknumberRE title.data with
  | some (i, e, _) =>
      match reSearch worknumberNumberRE (title.data.drop e) with
      | some (j, f, _) =>
          some (⟨sliceL title.data i e⟩ ++ ", " ++ ⟨sliceL (title.data.drop e) j f⟩)
      | none => some ⟨sliceL title.data i e⟩
  | none => none

/-- Model of `extract_movement(title)` (lines 131-149): restrict the numeric-pattern
search to the substring after the end of the *last* catalogue-token match
(`list(re.finditer(...))[-1].end()`), falling back to the full MOVEMENT
pattern over the whole title. -/
def extract_movement (title : String) : Option String :=
  let title_search :=
    match (reScan worknumberRE title.data).getLast? with
    | some (_, e, _) => title.data.drop e
    | none => title.data
  match reSearch movementNumberRE title_search with
  | some (i, e, _) => some ⟨sliceL title_search i e⟩
  | none =>
      match reSearch movementRE title.data with
      | some (i, e, _) => some ⟨sliceL title.data i e⟩
      | none => none

/-- Model of `extract_key(title)` (lines 152-161). -/
def extract_key (title : String) : Option String :=
  match reSearch keyRE title.data with
  | some (i, e, _) => some ⟨sliceL title.data i e⟩
  | none => none

/-- Model of `extract_instruments(title)` (lines 164-175): `re.findall` (whose single
capture group yields the instrument names without the plural `s`),
capitalize, deduplicate keeping first occurrences, join with `", "`.  As in
`extract_composition`, the `is not None` test is vacuous. -/
def extract_instruments (title : String) : Option String :=
  let result := reFindall1 instrumentRE title.data
  some (String.intercalate ", " (pyDedup (result.map (fun m => pyCapitalize ⟨m⟩))))

/-- The labeler's command-line switches (`process_cmdline_options`), one
boolean per optional field. -/
structure Args where
  composition : Bool
  nickname : Bool
  worknumber : Bool
  key : Bool
  movement : Bool
  instruments : Bool
deriving DecidableEq

/-- One tag-source record: `path.parent` and `path.name` as strings, and the
three tag fields, each possibly `None`. -/
structure TagRec where
  parent : String
  filename : String
  title : Option String
  artist : Option String
  album : Option String
deriving DecidableEq

/-- One assembled row before `fillna`.  An optional field is `none` when its
switch is off (column absent), and `some v` with `v : Option String` the
extractor's result otherwise. -/
structure Row where
  path : String
  filename : String
  title : Option String
  composer : String
  composition : Option (Option String)
  composition_number : Option (Option String)
  nickname : Option (Option String)
  workno : Option (Option String)
  key : Option (Option String)
  movement : Option (Option String)
  instruments : Option (Option String)
deriving DecidableEq

/-- Apply a title extractor the way `label_data` does: the extractors receive
`file.title` directly, so a `None` title raises `TypeError` inside `re`. -/
def onTitle (f : String → Option String) : Option String → Except PyErr (Option String)
  | none => .error .typeError
  | some t => .ok (f t)

/-- Assemble one row of `label_data` (lines 194-226): composer first
(mandatory), then each optional extractor guarded by its switch. -/
def labelRow (args : Args) (r : TagRec) : Except PyErr Row := do
  let composer ← extract_composer r.artist r.title r.album r.parent
  let composition ← if args.composition then
      (onTitle extract_composition r.title).map some else .ok none
  let composition_number ← if args.composition then
      (onTitle extract_composition_no r.title).map some else .ok none
  let nickname ← if args.nickname then
      (onTitle extract_nickname r.title).map some else .ok none
  let workno ← if args.worknumber then
      (onTitle extract_workno r.title).map some else .ok none
  let key ← if args.key then
      (onTitle extract_key r.title).map some else .ok none
  let movement ← if args.movement then
      (onTitle extract_movement r.title).map some else .ok none
  let instruments ← if args.instruments then
      (onTitle extract_instruments r.title).map some else .ok none
  .ok ⟨r.parent, r.filename, r.title, composer, composition, composition_number,
       nickname, workno, key, movement, instruments⟩

/-- A row after `files_df.fillna("")` (line 228): every absent value in a
present column becomes the empty string. -/
structure FilledRow where
  path : String
  filename : String
  title : String
  composer : String
  composition : Option String
  composition_number : Option String
  nickname : Option String
  workno : Option String
  key : Option String
  movement : Option String
  instruments : Option String
deriving DecidableEq

/-- Replace `NaN`/`None` by the empty string, per enabled column. -/
def fillRow (r : Row) : FilledRow :=
  ⟨r.path, r.filename, r.title.getD "", r.composer,
   r.composition.map (fun v => v.getD ""),
   r.composition_number.map (fun v => v.getD ""),
   r.nickname.map (fun v => v.getD ""),
   r.workno.map (fun v => v.getD ""),
   r.key.map (fun v => v.getD ""),
   r.movement.map (fun v => v.getD ""),
   r.instruments.map (fun v => v.getD "")⟩

/-- The row-assembly loop of `label_data` (lines 189-228): skip a record iff
all three metadata fields are `None`; otherwise run the extractors and emit
one row.  A Python exception anywhere aborts the whole run (no rows are
produced).  The subsequent `LabelEncoder` pass only appends an integer column
and is irrelevant to the emission behaviour modelled here. -/
def labelData (args : Args) : List TagRec → Except PyErr (List FilledRow)
  | [] => .ok []
  | r :: rest =>
      if r.artist.isNone && r.title.isNone && r.album.isNone then
        labelData args rest
      else do
        let row ← labelRow args r
        let rows ← labelData args rest
        .ok (fillRow row :: rows)

/-- All switches off: the configuration `label_data` runs with by default. -/
def argsOff : Args := ⟨false, false, false, false, false, false⟩

/-- Canonical composer form per the spec: the matched text lower-cased then
capitalized. -/
def canonicalComposer (s : List Char) (i e : Nat) : String :=
  pyCapitalize (pyLower ⟨sliceL s i e⟩)

/-- Spec-form description of the main composer resolver (amended for C2):
search `artist`, then `title`, then `album`, then the file path, in that
fixed order, returning the first match in canonical form; a `None` entry
reached by the loop raises `TypeError`; when even the path has no match the
code raises `AttributeError` rather than yielding an absent composer. -/
def composerSpecMain (artist title album : Option String) (path : String) :
    Except PyErr String :=
  match artist with
  | none => .error .typeError
  | some a =>
    match reSearch composerRE a.data with
    | some (i, e, _) => .ok (canonicalComposer a.data i e)
    | none =>
      match title with
      | none => .error .typeError
      | some t =>
        match reSearch composerRE t.data with
        | some (i, e, _) => .ok (canonicalComposer t.data i e)
        | none =>
          match album with
          | none => .error .typeError
          | some al =>
            match reSearch composerRE al.data with
            | some (i, e, _) => .ok (canonicalComposer al.data i e)
            | none =>
              match reSearch composerRE path.data with
              | some (i, e, _) => .ok (canonicalComposer path.data i e)
              | none => .error .attributeError

/-- Spec-form description of the minimal-variant composer resolver: the same
three-entry search but no path fallback at all — all three missing yields an
absent composer. -/
def composerSpecMin (artist title album : Option String) :
    Except PyErr (Option String) :=
  match artist with
  | none => .error .typeError
  | some a =>
    match reSearch composerMinRE a.data with
    | some (i, e, _) => .ok (some (canonicalComposer a.data i e))
    | none =>
      match title with
      | none => .error .typeError
      | some t =>
        match reSearch composerMinRE t.data with
        | some (i, e, _) => .ok (some (canonicalComposer t.data i e))
        | none =>
          match album with
          | none => .error .typeError
          | some al =>
            match reSearch composerMinRE al.data with
            | some (i, e, _) => .ok (some (canonicalComposer al.data i e))
            | none => .ok none

/-- The movement extractor's restricted window per the spec: the substring
after the end of the last catalogue-token match, or the whole title when no
catalogue token occurs. -/
def movementWindow (title : String) : List Char :=
  match (reScan worknumberRE title.data).getLast? with
  | some (_, e, _) => title.data.drop e
  | none => title.data

/-- The numeric two-leading-digits movement search, over a given window. -/
def numericMovementIn (w : List Char) : Option String :=
  (reSearch movementNumberRE w).map (fun r => ⟨sliceL w r.1 r.2.1⟩)

/-- The fallback search of the full movement disjunction over the entire
original title. -/
def fullMovementIn (title : String) : Option String :=
  (reSearch movementRE title.data).map (fun r => ⟨sliceL title.data r.1 r.2.1⟩)

/-- Spec-form description of the work-number extractor: find the catalogue
token; absent when there is none; otherwise look for a following `No. N`
token after the catalogue match and join with `", "`. -/
def worknoSpec (title : String) : Option String :=
  match reSearch worknumberRE title.data with
  | none => none
  | some (i, e, _) =>
      let tok : String := ⟨sliceL title.data i e⟩
      match reSearch worknumberNumberRE (title.data.drop e) with
      | some (j, f, _) => some (tok ++ ", " ++ ⟨sliceL (title.data.drop e) j f⟩)
      | none => some tok

/-- Case-insensitive test that the word `w` occurs at position `i` of `s`. -/
def caselessPrefixAt (s : List Char) : List Char → Nat → Bool
  | [], _ => true
  | c :: cs, i =>
      match s[i]? with
      | some d => lcEq d c && caselessPrefixAt s cs (i + 1)
      | none => false

/-- Case-insensitive equality of two character lists. -/
def caselessEqL : List Char → List Char → Bool
  | [], [] => true
  | a :: as, b :: bs => lcEq a b && caselessEqL as bs
  | _, _ => false

/-- Case-insensitive substring occurrence test. -/
def hasCaselessSub (s w : List Char) : Bool :=
  (List.range (s.length + 1)).any (fun i => caselessPrefixAt s w i)

/-- Index of the first occurrence of `x` in `l`. -/
def firstIdx (l : List String) (x : String) : Nat :=
  match l with
  | [] => 0
  | y :: ys => if y = x then 0 else firstIdx ys x + 1

/-- Reference recursion for first-occurrence deduplication. -/
def dedupF : List String → List String
  | [] => []
  | x :: xs => x :: dedupF (xs.filter (fun y => decide (y ≠ x)))
termination_by l => l.length
decreasing_by
  simp only [List.length_cons]
  exact Nat.lt_succ_of_le (List.length_filter_le _ _)

/-- Hypothesis form for C5: the title contains no composition-genre term of
the spec's fixed vocabulary (case-insensitively). -/
def noCompTermB (title : String) : Bool :=
  compositionVocab.all (fun w => !(hasCaselessSub title.data w.data))

example : matchTop (litS "ab".data) "xAB".data 1 = some (3, []) := rfl

example : matchTop (litS "ab".data) "xAB".data 0 = none := rfl

example : reSearch (litS "ab".data) "xAB".data = some (1, 3, []) := rfl

example : reFindall0 (litS "a".data) "aAb".data = [['a'], ['A']] := rfl

example : matchTop (.seq (.star digitRE) (.lit 'a')) "12a".data 0 = some (3, []) := rfl

example : reSearch (.seq .wordB (.seq (litS "ab".data) .wordB)) "x ab y".data =
    some (2, 4, []) := rfl

example : reSearch keyRE "Sonata in C".data = some (9, 11, []) := rfl

example : reSearch keyRE "Symphony C Major".data = none := rfl

example : reFindall1 instrumentRE "Violins".data = ["Violin".data] := rfl

example : extract_composition "Piano Sonata No. 14" = some "Sonata" := rfl

example : extract_composition_no "Piano Sonata No. 14" = some "No. 14" := rfl

example : extract_movement "Sonata: Allegro molto" = some "Allegro molto" := rfl

example :
    labelData argsOff [⟨"p", "f", some "Bach - Sonata", some "x", none⟩] =
      .ok [⟨"p", "f", "Bach - Sonata", "Bach", none, none, none, none, none,
            none, none⟩] := rfl

example :
    labelData argsOff [⟨"p", "f", some "Bach - Sonata", none, none⟩] =
      .error .typeError := rfl

/-- Matching a case-insensitive literal either consumes exactly the literal
(caselessly) and continues, or fails. -/
theorem mStep_litS (next : RE → List Char → Nat → Caps → MK → Option (Nat × Caps))
    (w : List Char) (s : List Char) :
    ∀ (i : Nat) (cs : Caps) (k : MK),
      mStep next (litS w) s i cs k =
        if caselessPrefixAt s w i then k (i + w.length) cs else none := by
  induction w with
  | nil => intro i cs k; simp [litS, mStep, caselessPrefixAt]
  | cons c crest ih =>
      intro i cs k
      rcases hg : s[i]? with _ | d
      · simp [litS, mStep, caselessPrefixAt, hg]
      · cases hl : lcEq d c with
        | false => simp [litS, mStep, caselessPrefixAt, hg, hl]
        | true =>
            simp only [litS, mStep, caselessPrefixAt, hg, hl, if_true, Bool.true_and]
            rw [ih]
            have h2 : i + 1 + crest.length = i + (crest.length + 1) := by omega
            simp [h2]

/-- The never-matching base of `altL`. -/
theorem mStep_never (next : RE → List Char → Nat → Caps → MK → Option (Nat × Caps))
    (s : List Char) (i : Nat) (cs : Caps) (k : MK) :
    mStep next (.pred (fun _ => false)) s i cs k = none := by
  simp only [mStep]
  cases s[i]? <;> simp

/-- If every alternative fails, the alternation fails. -/
theorem altL_none (next : RE → List Char → Nat → Caps → MK → Option (Nat × Caps))
    (s : List Char) (i : Nat) (cs : Caps) (k : MK) :
    ∀ (rs : List RE), (∀ r ∈ rs, mStep next r s i cs k = none) →
      mStep next (altL rs) s i cs k = none := by
  intro rs
  induction rs with
  | nil => intro _; simpa [altL] using mStep_never next s i cs k
  | cons r rest ih =>
      intro h
      show mStep next (.alt r (altL rest)) s i cs k = none
      simp only [mStep]
      rw [h r (List.mem_cons_self r rest)]
      exact ih (fun r hr => h r (List.mem_cons_of_mem _ hr))

/-- A successful alternation comes from a successful alternative. -/
theorem altL_some (next : RE → List Char → Nat → Caps → MK → Option (Nat × Caps))
    (s : List Char) (i : Nat) (cs : Caps) (k : MK) :
    ∀ (rs : List RE) (v : Nat × Caps), mStep next (altL rs) s i cs k = some v →
      ∃ r ∈ rs, mStep next r s i cs k = some v := by
  intro rs
  induction rs with
  | nil =>
      intro v h
      rw [show altL [] = .pred (fun _ => false) from rfl, mStep_never] at h
      exact absurd h (by simp)
  | cons r rest ih =>
      intro v h
      rw [show altL (r :: rest) = .alt r (altL rest) from rfl] at h
      simp only [mStep] at h
      cases ha : mStep next r s i cs k with
      | some w =>
          rw [ha] at h
          exact ⟨r, List.mem_cons_self r rest, ha.trans h⟩
      | none =>
          rw [ha] at h
          obtain ⟨r2, hr2, hm⟩ := ih v h
          exact ⟨r2, List.mem_cons_of_mem _ hr2, hm⟩

/-- A nonempty word cannot occur at or past the end of the string. -/
theorem caselessPrefixAt_oob (s : List Char) (c : Char) (cs : List Char) (i : Nat)
    (h : s.length ≤ i) : caselessPrefixAt s (c :: cs) i = false := by
  simp only [caselessPrefixAt]
  have : s[i]? = none := by
    rw [List.getElem?_eq_none_iff]
    exact h
  simp [this]

/-- Occurrence of a concatenation gives occurrence of the second part,
shifted by the first part's length. -/
theorem caselessPrefixAt_append (s a b : List Char) :
    ∀ (i : Nat), caselessPrefixAt s (a ++ b) i = true →
      caselessPrefixAt s b (i + a.length) = true := by
  induction a with
  | nil => intro i h; simpa using h
  | cons c crest ih =>
      intro i h
      simp only [List.cons_append, caselessPrefixAt] at h
      rcases hg : s[i]? with _ | d
      · rw [hg] at h; exact absurd h (by simp)
      · rw [hg] at h
        have h2 := ih (i + 1) (by
          rcases Bool.and_eq_true_iff.mp h with ⟨_, h2⟩
          exact h2)
        have : i + 1 + crest.length = i + (crest.length + 1) := by omega
        rw [this] at h2
        simpa using h2

/-- When a word occurs nowhere in the string (case-insensitively), it occurs
at no position at all. -/
theorem not_sub_of_hasCaselessSub_false (s : List Char) (c : Char) (cs : List Char)
    (h : hasCaselessSub s (c :: cs) = false) :
    ∀ i, caselessPrefixAt s (c :: cs) i = false := by
  intro i
  by_cases hle : i ≤ s.length
  · have hmem : i ∈ List.range (s.length + 1) := List.mem_range.mpr (by omega)
    simp only [hasCaselessSub, List.any_eq_false] at h
    exact Bool.eq_false_iff.mpr (fun hc => (h i hmem) hc)
  · exact caselessPrefixAt_oob s c cs i (by omega)

/-- Every recorded scan element is an actual match at its start position. -/
theorem scanAux_mem (re : RE) (s : List Char) :
    ∀ (f i0 : Nat) (p e : Nat) (cs : Caps),
      (p, e, cs) ∈ scanAux re s f i0 → matchTop re s p = some (e, cs) := by
  intro f
  induction f with
  | zero => intro i0 p e cs h; simp [scanAux] at h
  | succ f ih =>
      intro i0 p e cs h
      simp only [scanAux] at h
      by_cases hle : i0 > s.length
      · simp [hle] at h
      · rw [if_neg hle] at h
        cases hm : matchTop re s i0 with
        | some v =>
            obtain ⟨e2, cs2⟩ := v
            rw [hm] at h
            rcases List.mem_cons.mp h with heq | hmem2
            · obtain ⟨hp, he, hcs⟩ : p = i0 ∧ e = e2 ∧ cs = cs2 := by
                simpa using heq
              subst hp; subst he; subst hcs
              exact hm
            · exact ih _ p e cs hmem2
        | none =>
            rw [hm] at h
            exact ih _ p e cs h

/-- If the pattern matches at no position, the scan is empty. -/
theorem scanAux_nil (re : RE) (s : List Char)
    (h : ∀ i, matchTop re s i = none) :
    ∀ (f i0 : Nat), scanAux re s f i0 = [] := by
  intro f
  induction f with
  | zero => intro i0; simp [scanAux]
  | succ f ih =>
      intro i0
      simp only [scanAux]
      by_cases hle : i0 > s.length
      · simp [hle]
      · rw [if_neg hle, h i0]
        exact ih (i0 + 1)

/-- The first scan element is a match at its start position. -/
theorem reSearch_matchTop (re : RE) (s : List Char) (p e : Nat) (cs : Caps)
    (h : reSearch re s = some (p, e, cs)) : matchTop re s p = some (e, cs) := by
  have hmem : (p, e, cs) ∈ reScan re s := by
    unfold reSearch at h
    cases hl : reScan re s with
    | nil => rw [hl] at h; simp at h
    | cons a t =>
        rw [hl] at h
        simp only [List.head?_cons, Option.some.injEq] at h
        subst h
        exact List.mem_cons_self _ t
  exact scanAux_mem re s _ _ p e cs hmem

/-- The matched slice of a caseless literal occurrence is caselessly equal to
the literal. -/
theorem sliceL_caselessEq (s : List Char) :
    ∀ (w : List Char) (i : Nat), caselessPrefixAt s w i = true →
      caselessEqL (sliceL s i (i + w.length)) w = true := by
  intro w
  induction w with
  | nil => intro i _; simp [sliceL, caselessEqL]
  | cons c crest ih =>
      intro i h
      simp only [caselessPrefixAt] at h
      rcases hg : s[i]? with _ | d
      · rw [hg] at h; exact absurd h (by simp)
      · rw [hg] at h
        rcases Bool.and_eq_true_iff.mp h with ⟨h1, h2⟩
        have hlt : i < s.length := by
          by_contra hge
          rw [List.getElem?_eq_none_iff.mpr (by omega)] at hg
          exact absurd hg (by simp)
        have hdrop : s.drop i = d :: s.drop (i + 1) := by
          rw [List.drop_eq_getElem_cons hlt]
          congr 1
          have hx := List.getElem?_eq_getElem hlt
          rw [hg] at hx
          exact (Option.some.injEq .. ▸ hx.symm)
        have h3 := ih (i + 1) h2
        simp only [sliceL] at h3
        rw [show i + 1 + crest.length - (i + 1) = crest.length by omega] at h3
        simp only [sliceL, hdrop, List.length_cons]
        rw [show i + (crest.length + 1) - i = crest.length + 1 by omega]
        simp only [List.take_succ_cons, caselessEqL]
        exact Bool.and_eq_true_iff.mpr ⟨h1, h3⟩

theorem mem_dedupF_aux :
    ∀ (n : Nat) (l : List String), l.length ≤ n → ∀ y ∈ dedupF l, y ∈ l := by
  intro n
  induction n with
  | zero =>
      intro l hl y hy
      rw [List.length_eq_zero.mp (Nat.le_zero.mp hl)] at hy ⊢
      simp [dedupF] at hy
  | succ n ih =>
      intro l hl y hy
      cases l with
      | nil => simp [dedupF] at hy
      | cons x xs =>
          rw [dedupF] at hy
          rcases List.mem_cons.mp hy with h | h
          · exact h ▸ List.mem_cons_self x xs
          · have hlen : (xs.filter (fun y => decide (y ≠ x))).length ≤ n := by
              have := List.length_filter_le (fun y => decide (y ≠ x)) xs
              simp only [List.length_cons] at hl
              omega
            have := ih _ hlen y h
            exact List.mem_cons_of_mem x (List.mem_of_mem_filter this)

theorem mem_dedupF (l : List String) (y : String) (h : y ∈ dedupF l) : y ∈ l :=
  mem_dedupF_aux l.length l (Nat.le_refl _) y h

theorem nodup_dedupF_aux :
    ∀ (n : Nat) (l : List String), l.length ≤ n → (dedupF l).Nodup := by
  intro n
  induction n with
  | zero =>
      intro l hl
      rw [List.length_eq_zero.mp (Nat.le_zero.mp hl)]
      simp [dedupF]
  | succ n ih =>
      intro l hl
      cases l with
      | nil => simp [dedupF]
      | cons x xs =>
          rw [dedupF]
          have hlen : (xs.filter (fun y => decide (y ≠ x))).length ≤ n := by
            have := List.length_filter_le (fun y => decide (y ≠ x)) xs
            simp only [List.length_cons] at hl
            omega
          refine List.nodup_cons.mpr ⟨?_, ih _ hlen⟩
          intro hmem
          have := mem_dedupF _ _ hmem
          rcases List.mem_filter.mp this with ⟨_, hx⟩
          simp at hx

theorem nodup_dedupF (l : List String) : (dedupF l).Nodup :=
  nodup_dedupF_aux l.length l (Nat.le_refl _)

theorem firstIdx_filter_mono (p : String → Bool) :
    ∀ (l : List String) (a b : String), a ∈ l.filter p → b ∈ l.filter p →
      firstIdx (l.filter p) a < firstIdx (l.filter p) b →
      firstIdx l a < firstIdx l b := by
  intro l
  induction l with
  | nil => intro a b ha _ _; simp at ha
  | cons h t ih =>
      intro a b ha hb hlt
      cases hp : p h with
      | true =>
          rw [List.filter_cons_of_pos hp] at ha hb hlt
          by_cases hha : h = a
          · subst hha
            by_cases hhb : h = b
            · exfalso
              subst hhb
              have h0 : firstIdx (h :: t.filter p) h = 0 := by simp [firstIdx]
              omega
            · simp [firstIdx, hhb]
          · by_cases hhb : h = b
            · exfalso
              subst hhb
              have h0 : firstIdx (h :: t.filter p) h = 0 := by simp [firstIdx]
              omega
            · have ha2 : a ∈ t.filter p := by
                rcases List.mem_cons.mp ha with h1 | h1
                · exact absurd h1.symm hha
                · exact h1
              have hb2 : b ∈ t.filter p := by
                rcases List.mem_cons.mp hb with h1 | h1
                · exact absurd h1.symm hhb
                · exact h1
              have hshift : firstIdx (h :: t.filter p) a = firstIdx (t.filter p) a + 1 := by
                simp [firstIdx, hha]
              have hshift2 : firstIdx (h :: t.filter p) b = firstIdx (t.filter p) b + 1 := by
                simp [firstIdx, hhb]
              simp only [firstIdx, if_neg hha, if_neg hhb]
              have := ih a b ha2 hb2 (by omega)
              omega
      | false =>
          rw [List.filter_cons_of_neg (by simp [hp])] at ha hb hlt
          have hha : h ≠ a := by
            intro heq
            rcases List.mem_filter.mp ha with ⟨_, hpa⟩
            rw [← heq] at hpa
            simp [hp] at hpa
          have hhb : h ≠ b := by
            intro heq
            rcases List.mem_filter.mp hb with ⟨_, hpb⟩
            rw [← heq] at hpb
            simp [hp] at hpb
          simp only [firstIdx, if_neg hha, if_neg hhb]
          have := ih a b ha hb hlt
          omega

theorem pairwise_firstIdx_dedupF_aux :
    ∀ (n : Nat) (l : List String), l.length ≤ n →
      (dedupF l).Pairwise (fun a b => firstIdx l a < firstIdx l b) := by
  intro n
  induction n with
  | zero =>
      intro l hl
      rw [List.length_eq_zero.mp (Nat.le_zero.mp hl)]
      simp [dedupF]
  | succ n ih =>
      intro l hl
      cases l with
      | nil => simp [dedupF]
      | cons x xs =>
          rw [dedupF]
          have hlen : (xs.filter (fun y => decide (y ≠ x))).length ≤ n := by
            have := List.length_filter_le (fun y => decide (y ≠ x)) xs
            simp only [List.length_cons] at hl
            omega
          refine List.pairwise_cons.mpr ⟨?_, ?_⟩
          · intro b hb
            have hbf := mem_dedupF _ _ hb
            rcases List.mem_filter.mp hbf with ⟨_, hbx⟩
            have hxb : x ≠ b := by
              intro heq
              rw [← heq] at hbx
              simp at hbx
            simp [firstIdx, hxb]
          · have hpw := ih _ hlen
            refine List.Pairwise.imp_of_mem ?_ hpw
            intro a b ha hb hab
            have haf := mem_dedupF _ _ ha
            have hbf := mem_dedupF _ _ hb
            have hxa : x ≠ a := by
              intro heq
              rcases List.mem_filter.mp haf with ⟨_, h1⟩
              rw [← heq] at h1
              simp at h1
            have hxb : x ≠ b := by
              intro heq
              rcases List.mem_filter.mp hbf with ⟨_, h1⟩
              rw [← heq] at h1
              simp at h1
            simp only [firstIdx, if_neg hxa, if_neg hxb]
            have := firstIdx_filter_mono _ xs a b haf hbf hab
            omega

theorem pairwise_firstIdx_dedupF (l : List String) :
    (dedupF l).Pairwise (fun a b => firstIdx l a < firstIdx l b) :=
  pairwise_firstIdx_dedupF_aux l.length l (Nat.le_refl _)

theorem pyDedup_foldl_aux :
    ∀ (l acc : List String),
      List.foldl (fun acc x => if x ∈ acc then acc else acc ++ [x]) acc l =
        acc ++ dedupF (l.filter (fun y => decide (y ∉ acc))) := by
  intro l
  induction l with
  | nil => intro acc; simp [dedupF]
  | cons x xs ih =>
      intro acc
      simp only [List.foldl_cons]
      by_cases hmem : x ∈ acc
      · rw [if_pos hmem, ih acc, List.filter_cons_of_neg (by simp [hmem])]
      · rw [if_neg hmem, ih (acc ++ [x]),
          List.filter_cons_of_pos (by simp [hmem])]
        rw [dedupF]
        have hfe : xs.filter (fun y => decide (y ∉ acc ++ [x])) =
            (xs.filter (fun y => decide (y ∉ acc))).filter (fun y => decide (y ≠ x)) := by
          rw [List.filter_filter]
          refine List.filter_congr ?_
          intro y _
          by_cases h1 : y = x <;> by_cases h2 : y ∈ acc <;>
            simp [h1, h2, List.mem_append]
        rw [hfe, List.append_assoc, List.singleton_append]

theorem pyDedup_eq_dedupF (l : List String) : pyDedup l = dedupF l := by
  rw [pyDedup, pyDedup_foldl_aux l []]
  simp only [List.nil_append]
  congr 1
  refine (List.filter_congr ?_).trans (List.filter_true l)
  intro y _
  simp

/-- Scan start positions are bounded below by the scan cursor. -/
theorem scanAux_ge (re : RE) (s : List Char) :
    ∀ (f i0 : Nat) (r : Nat × Nat × Caps), r ∈ scanAux re s f i0 → i0 ≤ r.1 := by
  intro f
  induction f with
  | zero => intro i0 r h; simp [scanAux] at h
  | succ f ih =>
      intro i0 r h
      simp only [scanAux] at h
      by_cases hle : i0 > s.length
      · simp [hle] at h
      · rw [if_neg hle] at h
        cases hm : matchTop re s i0 with
        | some v =>
            obtain ⟨e2, cs2⟩ := v
            rw [hm] at h
            rcases List.mem_cons.mp h with heq | hmem2
            · subst heq; exact Nat.le_refl i0
            · have := ih _ r hmem2
              by_cases he : i0 < e2 <;> simp [he] at this <;> omega
        | none =>
            rw [hm] at h
            have := ih _ r h
            omega

/-- Scan elements come in strictly increasing start-position order: `findall`
and `finditer` return matches in title order. -/
theorem scanAux_pairwise (re : RE) (s : List Char) :
    ∀ (f i0 : Nat), (scanAux re s f i0).Pairwise (fun a b => a.1 < b.1) := by
  intro f
  induction f with
  | zero => intro i0; simp [scanAux]
  | succ f ih =>
      intro i0
      simp only [scanAux]
      by_cases hle : i0 > s.length
      · simp [hle]
      · rw [if_neg hle]
        cases hm : matchTop re s i0 with
        | some v =>
            obtain ⟨e2, cs2⟩ := v
            refine List.pairwise_cons.mpr ⟨?_, ih _⟩
            intro b hb
            have := scanAux_ge re s f _ b hb
            by_cases he : i0 < e2 <;> simp [he] at this <;> omega
        | none => exact ih _

theorem mStep_seq (next : RE → List Char → Nat → Caps → MK → Option (Nat × Caps))
    (a b : RE) (s : List Char) (i : Nat) (cs : Caps) (k : MK) :
    mStep next (.seq a b) s i cs k =
      mStep next a s i cs (fun j cs2 => mStep next b s j cs2 k) := rfl

theorem mStep_wordB (next : RE → List Char → Nat → Caps → MK → Option (Nat × Caps))
    (s : List Char) (i : Nat) (cs : Caps) (k : MK) :
    mStep next .wordB s i cs k = if boundaryAt s i then k i cs else none := rfl

theorem mStep_group (next : RE → List Char → Nat → Caps → MK → Option (Nat × Caps))
    (n : Nat) (r : RE) (s : List Char) (i : Nat) (cs : Caps) (k : MK) :
    mStep next (.group n r) s i cs k =
      mStep next r s i cs (fun j cs2 => k j ((n, i, j) :: cs2)) := rfl

theorem mStep_lookb (next : RE → List Char → Nat → Caps → MK → Option (Nat × Caps))
    (neg : Bool) (ps : List (Char → Bool)) (s : List Char) (i : Nat) (cs : Caps) (k : MK) :
    mStep next (.lookb neg ps) s i cs k =
      if neg then (if lookbOK s ps i then none else k i cs)
      else (if lookbOK s ps i then k i cs else none) := rfl

theorem matchTop_mStep (re : RE) (s : List Char) (i : Nat) :
    matchTop re s i =
      mStep (mFuel s.length) re s i [] (fun j cs => some (j, cs)) := rfl

/-- A word occurring nowhere (case-insensitively) occurs at no position. -/
theorem prefixAt_all_false (s v : List Char) (hv : v ≠ [])
    (hsub : hasCaselessSub s v = false) : ∀ i, caselessPrefixAt s v i = false := by
  cases v with
  | nil => exact absurd rfl hv
  | cons c cs => exact not_sub_of_hasCaselessSub_false s c cs hsub

/-- If the suffix `v` of a concatenation occurs nowhere, neither does the
concatenation. -/
theorem prefixAt_append_false (s a v : List Char) (hv : v ≠ [])
    (hsub : hasCaselessSub s v = false) :
    ∀ i, caselessPrefixAt s (a ++ v) i = false := by
  intro i
  cases hc : caselessPrefixAt s (a ++ v) i with
  | false => rfl
  | true =>
      exfalso
      have h1 := caselessPrefixAt_append s a v i hc
      have h2 := prefixAt_all_false s v hv hsub (i + a.length)
      rw [h2] at h1
      exact absurd h1 (by simp)

/-- A title with no vocabulary term has no COMPOSITION_PATTERN match at any
position. -/
theorem compositionRE_no_match (s : List Char)
    (h : ∀ w ∈ compositionVocab, hasCaselessSub s w.data = false) :
    ∀ i, matchTop compositionRE s i = none := by
  intro i
  rw [matchTop_mStep]
  refine altL_none _ s i [] _ _ ?_
  intro r hr
  obtain ⟨w, hw, rfl⟩ := List.mem_map.mp hr
  rw [mStep_litS]
  have hfalse : caselessPrefixAt s w.data i = false := by
    simp only [compositionLits, List.mem_cons, List.not_mem_nil, or_false] at hw
    rcases hw with rfl | rfl | rfl | rfl | rfl | rfl | rfl | rfl | rfl | rfl |
      rfl | rfl | rfl | rfl | rfl | rfl | rfl | rfl
    all_goals first
      | exact prefixAt_all_false s _ (by decide) (h _ (by decide)) i
      | · rw [show ("\n    Variations".data : List Char) =
            "\n    ".data ++ "Variations".data from rfl]
          exact prefixAt_append_false s "\n    ".data "Variations".data (by decide)
            (h "Variations" (by decide)) i
  rw [hfalse]
  simp

theorem predsAt_in_eq (s : List Char) (j : Nat) :
    predsAt s keyInPreds j = caselessPrefixAt s ['i', 'n'] j := by
  rcases hg : s[j]? with _ | d
  · simp [keyInPreds, predsAt, caselessPrefixAt, hg]
  · rcases hg2 : s[j + 1]? with _ | e <;>
      simp [keyInPreds, predsAt, caselessPrefixAt, hg, hg2]

/-- Any KEY_PATTERN match is immediately preceded by the two characters `in`
(case-insensitively): the positive lookbehind is mandatory. -/
theorem keyRE_match_requires_in (s : List Char) (i : Nat) (r : Nat × Caps)
    (h : matchTop keyRE s i = some r) :
    2 ≤ i ∧ caselessPrefixAt s ['i', 'n'] (i - 2) = true := by
  rw [matchTop_mStep, show keyRE = .seq (.lookb false keyInPreds) keyTailRE from rfl,
    mStep_seq, mStep_lookb] at h
  simp only [Bool.false_eq_true, if_false] at h
  by_cases hl : lookbOK s keyInPreds i
  · unfold lookbOK at hl
    rcases Bool.and_eq_true_iff.mp hl with ⟨h1, h2⟩
    refine ⟨by simpa [keyInPreds] using of_decide_eq_true h1, ?_⟩
    rw [← predsAt_in_eq]
    simpa [keyInPreds] using h2
  · rw [if_neg hl] at h
    exact absurd h (by simp)

/-- Destructor for one vocabulary alternative: a successful match consumed
exactly the (caseless) literal word. -/
theorem vocabRE_some (next : RE → List Char → Nat → Caps → MK → Option (Nat × Caps))
    (v : VocabAlt) (s : List Char) (i : Nat) (cs : Caps) (k : MK)
    (r : Nat × Caps) (h : mStep next (vocabRE v) s i cs k = some r) :
    caselessPrefixAt s v.word.data i = true ∧
      k (i + v.word.data.length) cs = some r := by
  obtain ⟨g, word⟩ := v
  cases g with
  | none =>
      simp only [vocabRE] at h
      rw [mStep_litS] at h
      by_cases hp : caselessPrefixAt s word.data i = true
      · rw [if_pos hp] at h; exact ⟨hp, h⟩
      · rw [if_neg hp] at h; exact absurd h (by simp)
  | some ps =>
      simp only [vocabRE] at h
      rw [mStep_seq, mStep_lookb] at h
      simp only [if_true] at h
      by_cases hl : lookbOK s ps i
      · rw [if_pos hl] at h; exact absurd h (by simp)
      · rw [if_neg hl, mStep_litS] at h
        by_cases hp : caselessPrefixAt s word.data i = true
        · rw [if_pos hp] at h; exact ⟨hp, h⟩
        · rw [if_neg hp] at h; exact absurd h (by simp)

/-- Destructor for the tail of INSTRUMENT_PATTERN (`(?:s)?\b`): it consumes
at most one character and never touches the captures. -/
theorem instrTail_some (next : RE → List Char → Nat → Caps → MK → Option (Nat × Caps))
    (s : List Char) (j : Nat) (cs : Caps) (k : MK) (r : Nat × Caps)
    (h : mStep next instrTailRE s j cs k = some r) :
    k j cs = some r ∨ k (j + 1) cs = some r := by
  simp only [instrTailRE, mStep] at h
  rcases hg : s[j]? with _ | d
  · simp only [hg] at h
    by_cases hb : boundaryAt s j
    · rw [if_pos hb] at h; exact Or.inl h
    · rw [if_neg hb] at h; exact absurd h (by simp)
  · simp only [hg] at h
    by_cases hd : lcEq d 's' = true
    · rw [if_pos hd] at h
      by_cases hb1 : boundaryAt s (j + 1)
      · rw [if_pos hb1] at h
        cases hk : k (j + 1) cs with
        | some v =>
            rw [hk] at h
            have h2 : some v = some r := h
            exact Or.inr h2
        | none =>
            rw [hk] at h
            by_cases hb : boundaryAt s j
            · rw [if_pos hb] at h; exact Or.inl h
            · rw [if_neg hb] at h; exact absurd h (by simp)
      · rw [if_neg hb1] at h
        by_cases hb : boundaryAt s j
        · rw [if_pos hb] at h; exact Or.inl h
        · rw [if_neg hb] at h; exact absurd h (by simp)
    · rw [if_neg hd] at h
      by_cases hb : boundaryAt s j
      · rw [if_pos hb] at h; exact Or.inl h
      · rw [if_neg hb] at h; exact absurd h (by simp)

/-- A successful INSTRUMENT_PATTERN match captured exactly one vocabulary
word (caselessly) in group 1 — the optional plural `s` is outside the
capture. -/
theorem instr_match_group (s : List Char) (p e : Nat) (cs : Caps)
    (h : matchTop instrumentRE s p = some (e, cs)) :
    ∃ v ∈ instrumentVocab, caselessPrefixAt s v.word.data p = true ∧
      cs = [(1, p, p + v.word.data.length)] := by
  rw [matchTop_mStep,
    show instrumentRE = .seq .wordB (.seq (.group 1 instrInnerRE) instrTailRE)
      from rfl, mStep_seq, mStep_wordB] at h
  by_cases hb : boundaryAt s p
  · rw [if_pos hb, mStep_seq, mStep_group,
      show instrInnerRE = altL (instrumentVocab.map vocabRE) from rfl] at h
    obtain ⟨relem, hrel, hsome⟩ := altL_some _ s p [] _ _ _ h
    obtain ⟨v, hv, rfl⟩ := List.mem_map.mp hrel
    obtain ⟨hpre, hk⟩ := vocabRE_some _ v s p [] _ _ hsome
    rcases instrTail_some _ s _ _ _ _ hk with hfin | hfin <;>
    · simp only [Option.some.injEq, Prod.mk.injEq] at hfin
      exact ⟨v, hv, hpre, hfin.2.symm⟩
  · rw [if_neg hb] at h
    exact absurd h (by simp)

/-- C1: the claim says a row is emitted whenever at least one of artist,
title, album is non-absent.  The code contradicts this: for a record whose
artist tag is absent but whose title is present (here even containing a
composer name, so every reading of the spec expects a row), `label_data`
crashes — `extract_composer` iterates over `[artist, title, album]` and calls
`re.search` on `None`, raising `TypeError`, so the pipeline emits nothing at
all.  The guard in `label_data` only skips records whose three fields are
*all* absent. -/
theorem c1_partial_metadata_crash :
    labelData argsOff [⟨"p", "f", some "Bach - Sonata", none, none⟩] =
      .error .typeError := rfl

/-- C4: the claim says the composition-number extractor also returns a Roman
numeral immediately followed by " in".  In the code, the Roman-numeral
alternative of COMPOSITION_NUMBER begins with a literal newline and four
spaces (the raw-string line-continuation artifact), so it can never match a
single-line title: on "Symphony V in C" the claim expects "V" (the search
starts after "Symphony", and "V" is followed by " in"), but the code finds
nothing. -/
theorem c4_roman_branch_unreachable :
    extract_composition_no "Symphony V in C" = none := rfl

/-- C5 counterexample: on a title with no composition-genre term the
extractor does NOT return the absent value (`None`): `re.findall` returns an
empty list, the `is not None` guard is vacuously true, and the function
returns the joined empty string, so its result is always a present string. -/
theorem c5_cex_not_absent : (extract_composition "xyz").isSome = true := rfl

/-- C5 amended: for every title containing no composition-genre term of the
fixed vocabulary (case-insensitively), `extract_composition` returns the
empty string — the blank that the pipeline serializes for absent fields —
rather than the distinguished absent value (whose `return None` branch is
dead code). -/
theorem c5_blank_when_no_term (title : String) (h : noCompTermB title = true) :
    extract_composition title = some "" := by
  have hh : ∀ w ∈ compositionVocab, hasCaselessSub title.data w.data = false := by
    intro w hw
    have := List.all_eq_true.mp h w hw
    simpa using this
  have hscan : reScan compositionRE title.data = [] :=
    scanAux_nil _ _ (compositionRE_no_match title.data hh) _ _
  simp only [extract_composition, reFindall0, hscan, List.map_nil]
  rw [show pyDedup [] = [] from rfl, show String.intercalate ", " [] = "" from rfl]

/-- C5 witness: the amended theorem applied to the concrete title "xyz". -/
theorem c5_blank_when_no_term_w : extract_composition "xyz" = some "" :=
  c5_blank_when_no_term "xyz" (by decide)

/-- C6 counterexample: the claim says the key letter is only *optionally*
preceded by "in" and that a key not preceded by "in" is still found.  KEY_PATTERN
starts with the mandatory positive lookbehind `(?<=in)`, so in the title
"Symphony C Major" — which contains the key-shaped text "C Major" but no "in"
anywhere — no key is found at all, contradicting "absent only when no such
key occurs". -/
theorem c6_cex_key_not_found_without_in :
    extract_key "Symphony C Major" = none := rfl

/-- C6 amended: `extract_key` returns the first KEY_PATTERN match, and every
such match is mandatorily preceded by the two characters "in"
(case-insensitively, possibly as the tail of a longer word) immediately
before the match start — the "optionally preceded by in" reading is wrong. -/
theorem c6_key_requires_in (title : String) (i e : Nat) (cs : Caps)
    (h : reSearch keyRE title.data = some (i, e, cs)) :
    extract_key title = some ⟨sliceL title.data i e⟩ ∧
      2 ≤ i ∧ caselessPrefixAt title.data ['i', 'n'] (i - 2) = true := by
  refine ⟨?_, keyRE_match_requires_in title.data i (e, cs) (reSearch_matchTop _ _ _ _ _ h)⟩
  unfold extract_key
  rw [h]

/-- C6 witness: the amended theorem applied to "Sonata in C", whose key
match is the text " C" starting at index 9, right after "in" at indices
7-8. -/
theorem c6_key_requires_in_w :
    extract_key "Sonata in C" = some ⟨sliceL "Sonata in C".data 9 11⟩ ∧
      2 ≤ 9 ∧ caselessPrefixAt "Sonata in C".data ['i', 'n'] 7 = true :=
  c6_key_requires_in "Sonata in C" 9 11 [] (by decide)

/-- C7 counterexample: the claim expects exactly "C-sharp minor", but the
whitespace consumed by `(?:\s)?` after the zero-width lookbehind is part of
`match.group(0)`, so the returned string carries a leading space. -/
theorem c7_cex_leading_space :
    (extract_key "Sonata No. 14 in C-sharp minor" == some "C-sharp minor") = false := by
  decide

/-- C7 amended: on "Sonata No. 14 in C-sharp minor" the key extractor
returns " C-sharp minor", with the leading space included in the match. -/
theorem c7_key_with_leading_space :
    extract_key "Sonata No. 14 in C-sharp minor" = some " C-sharp minor" := rfl

/-- C2 counterexample: the claim says that when artist, title and album have
no composer match the resolver searches the file path and, if the path also
has no match, the composer result is absent.  In the path-searching (main)
variant the code instead calls `.group(0)` on `None` and raises
`AttributeError`; no variant yields an absent composer after a failed path
search (the minimal variant never searches the path at all). -/
theorem c2_cex_no_match_raises :
    extract_composer (some "x") (some "y") (some "z") "w" =
      .error .attributeError := rfl

/-- C2 amended: the main variant searches artist, title, album, then the file
path, in that fixed order, returning the first match lower-cased then
capitalized, and raises `AttributeError` (rather than yielding absent) when
even the path has no match; the minimal variant searches only the three
metadata fields — no path fallback — and yields an absent composer when all
three miss.  In both variants a `None` entry reached by the loop raises
`TypeError`.  Case-insensitivity and canonicalization: "BACH" yields
"Bach". -/
theorem c2_composer_order_and_fallback :
    (∀ (artist title album : Option String) (path : String),
      extract_composer artist title album path =
        composerSpecMain artist title album path) ∧
    (∀ (artist title album : Option String),
      extract_composer_min artist title album =
        composerSpecMin artist title album) ∧
    extract_composer (some "BACH") none none "" = .ok "Bach" := by
  refine ⟨?_, ?_, rfl⟩
  · intro artist title album path
    cases artist with
    | none => rfl
    | some a =>
        cases hs1 : reSearch composerRE a.data with
        | some m =>
            obtain ⟨i1, e1, cs1⟩ := m
            simp [extract_composer, composerLoop, composerSpecMain, hs1,
              canonicalComposer]
        | none =>
            cases title with
            | none => simp [extract_composer, composerLoop, composerSpecMain, hs1]
            | some t =>
                cases hs2 : reSearch composerRE t.data with
                | some m =>
                    obtain ⟨i2, e2, cs2⟩ := m
                    simp [extract_composer, composerLoop, composerSpecMain,
                      hs1, hs2, canonicalComposer]
                | none =>
                    cases album with
                    | none =>
                        simp [extract_composer, composerLoop, composerSpecMain,
                          hs1, hs2]
                    | some al =>
                        cases hs3 : reSearch composerRE al.data with
                        | some m =>
                            obtain ⟨i3, e3, cs3⟩ := m
                            simp [extract_composer, composerLoop,
                              composerSpecMain, hs1, hs2, hs3, canonicalComposer]
                        | none =>
                            cases hs4 : reSearch composerRE path.data with
                            | some m =>
                                obtain ⟨i4, e4, cs4⟩ := m
                                simp [extract_composer, composerLoop,
                                  composerSpecMain, hs1, hs2, hs3, hs4,
                                  canonicalComposer]
                            | none =>
                                simp [extract_composer, composerLoop,
                                  composerSpecMain, hs1, hs2, hs3, hs4]
  · intro artist title album
    cases artist with
    | none => rfl
    | some a =>
        cases hs1 : reSearch composerMinRE a.data with
        | some m =>
            obtain ⟨i1, e1, cs1⟩ := m
            simp [extract_composer_min, composerLoop, composerSpecMin, hs1,
              canonicalComposer]
        | none =>
            cases title with
            | none => simp [extract_composer_min, composerLoop, composerSpecMin, hs1]
            | some t =>
                cases hs2 : reSearch composerMinRE t.data with
                | some m =>
                    obtain ⟨i2, e2, cs2⟩ := m
                    simp [extract_composer_min, composerLoop, composerSpecMin,
                      hs1, hs2, canonicalComposer]
                | none =>
                    cases album with
                    | none =>
                        simp [extract_composer_min, composerLoop,
                          composerSpecMin, hs1, hs2]
                    | some al =>
                        cases hs3 : reSearch composerMinRE al.data with
                        | some m =>
                            obtain ⟨i3, e3, cs3⟩ := m
                            simp [extract_composer_min, composerLoop,
                              composerSpecMin, hs1, hs2, hs3, canonicalComposer]
                        | none =>
                            simp [extract_composer_min, composerLoop,
                              composerSpecMin, hs1, hs2, hs3]

/-- C3: the movement extractor searches the numeric two-leading-digits form
only in the window after the end of the last catalogue-token match (the whole
title when there is none); when that fails it searches the entire original
title against the movement disjunction; and it is absent exactly when both
searches fail. -/
theorem c3_movement_window_and_fallback (title : String) :
    extract_movement title =
      (numericMovementIn (movementWindow title)).orElse
        (fun _ => fullMovementIn title) ∧
    (extract_movement title = none ↔
      numericMovementIn (movementWindow title) = none ∧
        fullMovementIn title = none) := by
  have heq : extract_movement title =
      (numericMovementIn (movementWindow title)).orElse
        (fun _ => fullMovementIn title) := by
    simp only [extract_movement, movementWindow, numericMovementIn, fullMovementIn]
    cases hlast : (reScan worknumberRE title.data).getLast? with
    | some m =>
        obtain ⟨a, e1, cs1⟩ := m
        simp only [hlast]
        cases hnum : reSearch movementNumberRE (title.data.drop e1) with
        | some m2 =>
            obtain ⟨i, e, cs⟩ := m2
            simp [hnum, Option.orElse]
        | none =>
            cases hfull : reSearch movementRE title.data with
            | some m3 => obtain ⟨i, e, cs⟩ := m3; simp [hnum, hfull, Option.orElse]
            | none => simp [hnum, hfull, Option.orElse]
    | none =>
        simp only [hlast]
        cases hnum : reSearch movementNumberRE title.data with
        | some m2 =>
            obtain ⟨i, e, cs⟩ := m2
            simp [hnum, Option.orElse]
        | none =>
            cases hfull : reSearch movementRE title.data with
            | some m3 => obtain ⟨i, e, cs⟩ := m3; simp [hnum, hfull, Option.orElse]
            | none => simp [hnum, hfull, Option.orElse]
  refine ⟨heq, ?_⟩
  rw [heq]
  cases hnum : numericMovementIn (movementWindow title) with
  | some v => simp [Option.orElse]
  | none =>
      cases hfull : fullMovementIn title with
      | some v => simp [Option.orElse]
      | none => simp [Option.orElse]

/-- C8: the work-number extractor is absent exactly when no catalogue token
occurs; otherwise it searches after the end of the first catalogue match for
a `No. N` token and joins the two with ", ", else returns the bare token; and
on "Sonata Op. 27, No. 2 in C minor" it yields "Op. 27, No. 2". -/
theorem c8_workno :
    (∀ title : String, extract_workno title = worknoSpec title) ∧
    extract_workno "Sonata Op. 27, No. 2 in C minor" = some "Op. 27, No. 2" := by
  refine ⟨?_, rfl⟩
  intro title
  unfold extract_workno worknoSpec
  cases reSearch worknumberRE title.data with
  | none => rfl
  | some m =>
      obtain ⟨i, e, cs⟩ := m
      cases reSearch worknumberNumberRE (title.data.drop e) with
      | none => rfl
      | some m2 => obtain ⟨j, f2, cs2⟩ := m2; rfl

/-- C9: the composition extractor's output is the ", "-join of the
capitalized match list deduplicated keeping first occurrences; that list has
no duplicates and is ordered by first occurrence in the match list — which
itself lists the matches in strictly increasing title position (last
conjunct), so the order is first-occurrence order in the title. -/
theorem c9_composition_dedup (title : String) :
    extract_composition title =
      some (String.intercalate ", "
        (pyDedup ((reFindall0 compositionRE title.data).map
          (fun m => pyCapitalize ⟨m⟩)))) ∧
    (pyDedup ((reFindall0 compositionRE title.data).map
      (fun m => pyCapitalize ⟨m⟩))).Nodup ∧
    (pyDedup ((reFindall0 compositionRE title.data).map
      (fun m => pyCapitalize ⟨m⟩))).Pairwise
        (fun a b =>
          firstIdx ((reFindall0 compositionRE title.data).map
            (fun m => pyCapitalize ⟨m⟩)) a <
          firstIdx ((reFindall0 compositionRE title.data).map
            (fun m => pyCapitalize ⟨m⟩)) b) ∧
    (reScan compositionRE title.data).Pairwise (fun r1 r2 => r1.1 < r2.1) := by
  refine ⟨rfl, ?_, ?_, scanAux_pairwise compositionRE title.data _ _⟩
  · rw [pyDedup_eq_dedupF]
    exact nodup_dedupF _
  · rw [pyDedup_eq_dedupF]
    exact pairwise_firstIdx_dedupF _

/-- C10: every entry captured by the instrument extractor's group is
(caselessly) one of the singular vocabulary names — the plural `s` sits
outside the capture group and is never part of the term; hence "Violins"
labels as "Violin", and a title containing both "Violin" and "Violins"
deduplicates to the single entry "Violin". -/
theorem c10_instruments_singular :
    (∀ (title : String) (x : List Char), x ∈ reFindall1 instrumentRE title.data →
      ∃ v ∈ instrumentVocab, caselessEqL x v.word.data = true) ∧
    extract_instruments "Violins" = some "Violin" ∧
    extract_instruments "Violin and Violins" = some "Violin" := by
  refine ⟨?_, rfl, rfl⟩
  intro title x hx
  simp only [reFindall1, List.mem_map] at hx
  obtain ⟨⟨p, e, cs⟩, hmem, rfl⟩ := hx
  have hm := scanAux_mem instrumentRE title.data _ _ p e cs hmem
  obtain ⟨v, hv, hpre, hcs⟩ := instr_match_group title.data p e cs hm
  refine ⟨v, hv, ?_⟩
  subst hcs
  simp only [capLookup, if_pos rfl]
  exact sliceL_caselessEq title.data v.word.data p hpre

/-- C10 witness: the universal part applied to the title "Violins" and its
single captured entry "Violin". -/
theorem c10_instruments_singular_w :
    ∃ v ∈ instrumentVocab, caselessEqL "Violin".data v.word.data = true :=
  c10_instruments_singular.1 "Violins" "Violin".data (by decide)
